import Mathlib

/-! # Log generator and profiling sample application

A shallow embedding of the two Go programs of the repository:

* `03/log-generator/logger.go`: a loop that sleeps a random interval, samples one value
  from each of five category tables, assembles a Loki push payload and posts it;
* `05_profiling_with_pyroscope/sample_app/main.go`: a loop that cycles through nine
  labelled workloads, among them a sorting workload and a goroutine fan-out.

Go `int`, `int64` and `time.Duration` values are integers reduced to the signed 64-bit
range where arithmetic is performed on them.  An index expression `table[r]` is a lookup
returning `none` where Go would panic.  Results of the random source, of the clock, of
`json.Marshal` and of `http.Post` are inputs of the embedding.
-/

/-- Reduction of an integer to the signed 64-bit range, as Go `int` and `int64`
arithmetic does on overflow. -/
def wrapInt64 (x : Int) : Int :=
  (x + 9223372036854775808) % 18446744073709551616 - 9223372036854775808

/-- The formatting verb `%d` of `fmt.Sprintf` applied to one integer: its decimal digits,
preceded by a minus sign when it is negative. -/
def sprintfD (x : Int) : String :=
  toString x

namespace LogGenerator

/-! ## `logger.go` -/

/-- The constant `url`. -/
def url : String := "http://loki:3100/loki/api/v1/push"

/-- The constant `time.Millisecond`, in nanoseconds. -/
def millisecond : Int := 1000000

/-- The table `hostNames`. -/
def hostNames : List String :=
  ["zeus", "cassandra", "hercules",
    "oracle", "athena", "jupiter", "poseidon", "hades", "artemis", "apollo", "demeter",
    "dionysus", "hephaestus", "hermes", "hestia", "iris", "nemesis", "pan", "persephone",
    "prometheus", "selen"]

/-- The table `serviceNames`. -/
def serviceNames : List String :=
  ["frontend", "backend", "database", "cache", "queue", "monitoring", "loadbalancer",
    "proxy", "storage", "auth", "api", "web", "worker", "scheduler", "cron", "admin",
    "service", "gateway", "service", "service", "service"]

/-- The table `sourceNames`. -/
def sourceNames : List String :=
  ["kubernetes", "ubuntu", "debian", "centos", "redhat", "fedora", "arch", "gentoo",
    "alpine", "suse", "rhel", "coreos", "docker", "rancher", "vmware", "xen", "hyperv",
    "openstack", "aws", "gcp", "azure", "digitalocean"]

/-- The table `severityNames`. -/
def severityNames : List String :=
  ["info", "info", "info", "info", "info", "info", "warning", "error", "critical",
    "debug", "debug", "debug"]

/-- The table `messageNames`. -/
def messageNames : List String :=
  ["User logged in", "User logged out", "User created", "User deleted", "User updated",
    "User password changed", "User password reset", "User password reset requested",
    "User password reset failed"]

/-- The five slices that `main` declares before its loop; they are the only variables of
`main` that live across passes. -/
structure Tables where
  hostNames : List String
  serviceNames : List String
  sourceNames : List String
  severityNames : List String
  messageNames : List String

/-- The values of the five slices when the loop is entered. -/
def tables : Tables :=
  { hostNames := hostNames
    serviceNames := serviceNames
    sourceNames := sourceNames
    severityNames := severityNames
    messageNames := messageNames }

/-- The index expression `table[r]`: `none` stands for the run-time panic on an index out
of range. -/
def index (table : List String) (r : Nat) : Option String :=
  table[r]?

/-- The argument of `time.Sleep`, in nanoseconds, when `rand.Intn(2000)` returned `r`:
`time.Duration(1000+r) * time.Millisecond`. -/
def sleepDuration (r : Int) : Int :=
  wrapInt64 (wrapInt64 (1000 + r) * millisecond)

/-- The number of indices `r` below `len(table)` at which `table[r]` is `v`. -/
def favourable (table : List String) (v : String) : Nat :=
  ((List.range table.length).filter (fun r => index table r == some v)).length

/-- The probability that `table[rand.Intn(len(table))]` is `v` when the index is uniform
over `0 .. len(table) - 1`: favourable indices over all indices. -/
def drawProbability (table : List String) (v : String) : ℚ :=
  (favourable table v : ℚ) / (table.length : ℚ)

/-- The values a payload is built from: strings, slices and string-keyed maps.  A map is
listed in the order of its composite literal. -/
inductive Value where
  | str (s : String)
  | arr (items : List Value)
  | obj (fields : List (String × Value))

/-- The value stored under key `k` of a map. -/
def Value.field (k : String) : Value → Option Value
  | .obj fields => fields.lookup k
  | _ => none

/-- The keys of a map. -/
def Value.keys : Value → List String
  | .obj fields => fields.map Prod.fst
  | _ => []

/-- The composite literal assigned to `logEntry`. -/
def logEntry (severity source serviceName hostName message : String) (unixNano : Int) :
    Value :=
  .obj [("streams", .arr [
    .obj [
      ("stream", .obj [
        ("severity", .str severity),
        ("source", .str source),
        ("service_name", .str serviceName),
        ("host_name", .str hostName),
        ("job", .str "log-generator")]),
      ("values", .arr [
        .arr [.str (sprintfD unixNano), .str message]])]])]

/-- What one pass of the loop reads from outside the program. -/
structure PassEnv where
  /-- The result of `rand.Intn(2000)`. -/
  delayDraw : Nat
  /-- The result of `time.Now().UnixNano()`. -/
  unixNano : Int
  /-- The result of `rand.Intn(len(severityNames))`. -/
  severityDraw : Nat
  /-- The result of `rand.Intn(len(sourceNames))`. -/
  sourceDraw : Nat
  /-- The result of `rand.Intn(len(serviceNames))`. -/
  serviceDraw : Nat
  /-- The result of `rand.Intn(len(hostNames))`. -/
  hostDraw : Nat
  /-- The result of `rand.Intn(len(messageNames))`. -/
  messageDraw : Nat
  /-- The function `json.Marshal`: the encoded body or an error. -/
  marshal : Value → Except String String
  /-- The function `http.Post`, given URL, content type and body: the status code of the
  response or an error. -/
  post : String → String → String → Except String Nat

/-- The contract of `rand.Intn(n)`: each draw is below the `n` it was asked for. -/
def PassEnv.DrawsInRange (tb : Tables) (env : PassEnv) : Prop :=
  env.delayDraw < 2000 ∧ env.severityDraw < tb.severityNames.length ∧
    env.sourceDraw < tb.sourceNames.length ∧ env.serviceDraw < tb.serviceNames.length ∧
    env.hostDraw < tb.hostNames.length ∧ env.messageDraw < tb.messageNames.length

/-- The five values sampled in one pass. -/
structure Sampled where
  severity : String
  source : String
  serviceName : String
  hostName : String
  message : String
deriving DecidableEq, Repr

/-- The five sampling statements of one pass, in source order, together with the tables
after them. -/
def sample (tb : Tables) (env : PassEnv) : Option (Sampled × Tables) := do
  let severity ← index tb.severityNames env.severityDraw
  let source ← index tb.sourceNames env.sourceDraw
  let serviceName ← index tb.serviceNames env.serviceDraw
  let hostName ← index tb.hostNames env.hostDraw
  let message ← index tb.messageNames env.messageDraw
  pure ({ severity := severity, source := source, serviceName := serviceName,
          hostName := hostName, message := message }, tb)

/-- The observable actions of the program. -/
inductive Event where
  | sleep (nanoseconds : Int)
  | post (url contentType body : String)
  | closeBody
  | fatal (err : String)
deriving DecidableEq, Repr

/-- How a pass ends: the loop goes on, the process exits with a code (`log.Fatal` exits
with code 1), or the process panics. -/
inductive Outcome where
  | next
  | exit (code : Nat)
  | panic
deriving DecidableEq, Repr

/-- The result of one pass: what it did, how it ended and the tables it leaves. -/
structure PassResult where
  events : List Event
  outcome : Outcome
  tables : Tables

/-- One pass of the loop of `main`. -/
def pass (tb : Tables) (env : PassEnv) : PassResult :=
  let slept := [Event.sleep (sleepDuration env.delayDraw)]
  match sample tb env with
  | none => { events := slept, outcome := .panic, tables := tb }
  | some (s, tb1) =>
    let entry := logEntry s.severity s.source s.serviceName s.hostName s.message env.unixNano
    match env.marshal entry with
    | .error err => { events := slept ++ [.fatal err], outcome := .exit 1, tables := tb1 }
    | .ok body =>
      match env.post url "application/json" body with
      | .error err =>
        { events := slept ++ [.post url "application/json" body, .fatal err],
          outcome := .exit 1, tables := tb1 }
      | .ok _ =>
        { events := slept ++ [.post url "application/json" body, .closeBody],
          outcome := .next, tables := tb1 }

/-- The loop of `main` over the passes whose inputs are given: the actions performed and
how the process ended (`none` while the loop is still running). -/
def run (tb : Tables) : List PassEnv → List Event × Option Outcome
  | [] => ([], none)
  | env :: rest =>
    let r := pass tb env
    match r.outcome with
    | .next => (r.events ++ (run r.tables rest).1, (run r.tables rest).2)
    | o => (r.events, some o)

end LogGenerator

namespace SampleApp

/-! ## `main.go` -/

/-- The statement `arr[j], arr[j+1] = arr[j+1], arr[j]` guarded by `arr[j] > arr[j+1]`:
`none` stands for the run-time panic on an index out of range. -/
def compareSwap (arr : List Int) (j : Nat) : Option (List Int) :=
  match arr[j]?, arr[j + 1]? with
  | some a, some b => if a > b then some ((arr.set j b).set (j + 1) a) else some arr
  | _, _ => none

/-- The inner loop of `bubbleSort`, `for j := 0; j < n-i-1; j++`, entered at `j`. -/
def innerLoop (n i : Nat) (j : Nat) (arr : List Int) : Option (List Int) :=
  if (j : Int) < (n : Int) - (i : Int) - 1 then
    match compareSwap arr j with
    | some arr1 => innerLoop n i (j + 1) arr1
    | none => none
  else some arr
termination_by n - j
decreasing_by omega

/-- The outer loop of `bubbleSort`, `for i := 0; i < n-1; i++`, entered at `i`. -/
def outerLoop (n : Nat) (i : Nat) (arr : List Int) : Option (List Int) :=
  if (i : Int) < (n : Int) - 1 then
    match innerLoop n i 0 arr with
    | some arr1 => outerLoop n (i + 1) arr1
    | none => none
  else some arr
termination_by n - i
decreasing_by omega

/-- The function `bubbleSort`: the contents of `arr` when it returns, `none` if it
panics. -/
def bubbleSort (arr : List Int) : Option (List Int) :=
  outerLoop arr.length 0 arr

/-- The library function `sort.Ints`, by its contract: the elements in increasing
order. -/
def sortInts (data : List Int) : List Int :=
  data.insertionSort (· ≤ ·)

/-- What `sortingWork` computes: the generated data, the copy sorted by `sort.Ints`, and
the copy sorted by `bubbleSort` when that branch is taken. -/
structure SortingRun where
  data : List Int
  data1 : List Int
  data2 : Option (List Int)
deriving DecidableEq, Repr

/-- The function `sortingWork`; `clock k` is the result of the `k`-th call of
`time.Now().UnixNano()`.  `none` stands for a panic (`make` with a negative length, or
one inside `bubbleSort`). -/
def sortingWork (size : Int) (clock : Nat → Int) : Option SortingRun :=
  if size < 0 then none
  else
    let data := (List.range size.toNat).map (fun k => Int.tmod (wrapInt64 (clock k)) 10000)
    let data1 := sortInts data
    if size ≤ 1000 then
      match bubbleSort data with
      | some data2 => some { data := data, data1 := data1, data2 := some data2 }
      | none => none
    else some { data := data, data1 := data1, data2 := none }

/-- The calls of workload functions that occur in the program, with their arguments. -/
inductive Work where
  | cpuIntensiveWork (n : Int)
  | memoryIntensiveWork (size : Int)
  | recursiveFibonacci (n : Int)
  | recursiveFactorial (n : Int)
  | stringProcessing (iterations : Int)
  | sortingWork (size : Int)
  | networkSimulation (requests : Int)
  | concurrentWork (workers : Int)
deriving DecidableEq, Repr

/-- One goroutine started by `concurrentWork`: its argument, the label it runs under and
the calls its `switch` selects. -/
structure Worker where
  workerID : Int
  label : String × String
  work : List Work
deriving DecidableEq, Repr

/-- The body of the goroutine of `concurrentWork` for one `workerID`. -/
def worker (workerID : Int) : Worker :=
  { workerID := workerID
    label := ("worker", "worker-" ++ sprintfD workerID)
    work :=
      match Int.tmod workerID 3 with
      | 0 => [.cpuIntensiveWork 1000000]
      | 1 => [.memoryIntensiveWork 500]
      | 2 => [.stringProcessing 10000]
      | _ => [] }

/-- The loop of `concurrentWork`, `for i := 0; i < workers; i++`, entered at `i`: the
goroutines it starts, in the order of their start. -/
def concurrentWorkFrom (workers : Int) (i : Nat) : List Worker :=
  if (i : Int) < workers then worker i :: concurrentWorkFrom workers (i + 1) else []
termination_by (workers - i).toNat
decreasing_by omega

/-- The function `concurrentWork`: the goroutines it starts and waits for. -/
def concurrentWork (workers : Int) : List Worker :=
  concurrentWorkFrom workers 0

/-- The nine functions the main loop chooses from. -/
inductive CatalogEntry where
  | fastFunction
  | slowFunction
  | recursiveFunction
  | memoryFunction
  | stringFunction
  | sortingFunction
  | networkFunction
  | mathFunction
  | concurrentFunction
deriving DecidableEq, Repr

/-- The labels a catalog function runs its body under. -/
def CatalogEntry.labels : CatalogEntry → List (String × String)
  | .fastFunction => [("function", "fast"), ("type", "cpu")]
  | .slowFunction => [("function", "slow"), ("type", "mixed")]
  | .recursiveFunction => [("function", "recursive"), ("type", "fibonacci")]
  | .memoryFunction => [("function", "memory"), ("type", "allocation")]
  | .stringFunction => [("function", "string"), ("type", "processing")]
  | .sortingFunction => [("function", "sorting"), ("type", "algorithms")]
  | .networkFunction => [("function", "network"), ("type", "simulation")]
  | .mathFunction => [("function", "math"), ("type", "factorial")]
  | .concurrentFunction => [("function", "concurrent"), ("type", "goroutines")]

/-- The calls in the body of a catalog function. -/
def CatalogEntry.body : CatalogEntry → List Work
  | .fastFunction => [.cpuIntensiveWork 1000000]
  | .slowFunction => [.cpuIntensiveWork 5000000, .memoryIntensiveWork 200]
  | .recursiveFunction => [.recursiveFibonacci 35]
  | .memoryFunction => [.memoryIntensiveWork 1000]
  | .stringFunction => [.stringProcessing 50000]
  | .sortingFunction => [.sortingWork 5000]
  | .networkFunction => [.networkSimulation 100]
  | .mathFunction => [.recursiveFactorial 15]
  | .concurrentFunction => [.concurrentWork 10]

/-- The running maximum `a` carried through the first `r` elements of `rest`: the effect
of `r` successive compare-and-swap steps on `a :: rest`. -/
def carry : Nat → Int → List Int → List Int
  | 0, a, rest => a :: rest
  | _ + 1, a, [] => [a]
  | r + 1, a, b :: rest => if a > b then b :: carry r a rest else a :: carry r b rest

end SampleApp

/-! ## Machine integers -/

/-- An integer in the signed 64-bit range is left as it is. -/
theorem wrapInt64_of_range (x : Int) (h1 : -9223372036854775808 ≤ x)
    (h2 : x < 9223372036854775808) : wrapInt64 x = x := by
  unfold wrapInt64
  omega

namespace LogGenerator

/-! ## Properties of `logger.go` -/

theorem sleepDuration_exact (r : Nat) (h : r < 2000) :
    sleepDuration r = (1000 + (r : Int)) * 1000000 := by
  unfold sleepDuration millisecond
  rw [wrapInt64_of_range (1000 + (r : Int)) (by omega) (by omega)]
  exact wrapInt64_of_range _ (by omega) (by omega)

theorem favourable_eq_count (v : String) (table : List String) :
    favourable table v = table.count v := by
  induction table with
  | nil => simp [favourable]
  | cons a l ih =>
    unfold favourable at ih ⊢
    rw [List.length_cons, List.range_succ_eq_map, List.filter_cons, List.filter_map,
      List.count_cons]
    have hfun : ((fun r => index (a :: l) r == some v) ∘ Nat.succ)
        = (fun r => index l r == some v) := by
      funext r
      simp [index]
    rw [hfun]
    simp only [index] at ih
    by_cases h : a = v
    · simp [index, h, ih]
    · have h2 : ¬ (v = a) := fun e => h e.symm
      simp [index, h, h2, ih]

theorem drawProbability_eq (table : List String) (v : String) :
    drawProbability table v = (table.count v : ℚ) / (table.length : ℚ) := by
  unfold drawProbability
  rw [favourable_eq_count]

theorem index_of_lt (table : List String) (r : Nat) (h : r < table.length) :
    ∃ v, index table r = some v ∧ v ∈ table := by
  refine ⟨table[r], ?_, List.getElem_mem h⟩
  simp [index, h]

theorem sample_of_inRange (tb : Tables) (env : PassEnv) (h : env.DrawsInRange tb) :
    ∃ s, sample tb env = some (s, tb) ∧ s.severity ∈ tb.severityNames ∧
      s.source ∈ tb.sourceNames ∧ s.serviceName ∈ tb.serviceNames ∧
      s.hostName ∈ tb.hostNames ∧ s.message ∈ tb.messageNames := by
  obtain ⟨_, h1, h2, h3, h4, h5⟩ := h
  obtain ⟨v1, e1, m1⟩ := index_of_lt _ _ h1
  obtain ⟨v2, e2, m2⟩ := index_of_lt _ _ h2
  obtain ⟨v3, e3, m3⟩ := index_of_lt _ _ h3
  obtain ⟨v4, e4, m4⟩ := index_of_lt _ _ h4
  obtain ⟨v5, e5, m5⟩ := index_of_lt _ _ h5
  refine ⟨⟨v1, v2, v3, v4, v5⟩, ?_, m1, m2, m3, m4, m5⟩
  simp [sample, e1, e2, e3, e4, e5]

/-- C1: for all sampled values and every timestamp the assembled payload has the single
key `streams` holding exactly one stream; the label map of that stream has exactly the
keys severity, source, service_name, host_name and job, bound to the sampled values and to
the fixed job name; its values hold exactly one pair, the decimal string of the timestamp
(the decimal digits of its magnitude, after a minus sign when it is negative) and the
unchanged message.  At the inputs of the specification the payload is the expected one. -/
theorem logEntry_shape :
    (∀ (severity source serviceName hostName message : String) (unixNano : Int),
      ∃ stream labels,
        (logEntry severity source serviceName hostName message unixNano).keys = ["streams"] ∧
        (logEntry severity source serviceName hostName message unixNano).field "streams"
          = some (.arr [stream]) ∧
        stream.keys = ["stream", "values"] ∧
        stream.field "stream" = some labels ∧
        labels.keys = ["severity", "source", "service_name", "host_name", "job"] ∧
        labels.field "severity" = some (.str severity) ∧
        labels.field "source" = some (.str source) ∧
        labels.field "service_name" = some (.str serviceName) ∧
        labels.field "host_name" = some (.str hostName) ∧
        labels.field "job" = some (.str "log-generator") ∧
        stream.field "values" = some (.arr [.arr [.str (toString unixNano), .str message]])) ∧
    (∀ n : Nat, sprintfD (n : Int) = Nat.repr n) ∧
    (∀ n : Nat, sprintfD (Int.negSucc n) = "-" ++ Nat.repr (n + 1)) ∧
    sprintfD 1700000000000000000 = "1700000000000000000" ∧
    logEntry "warning" "ubuntu" "backend" "zeus" "User logged in" 1700000000000000000
      = .obj [("streams", .arr [.obj [
          ("stream", .obj [("severity", .str "warning"), ("source", .str "ubuntu"),
            ("service_name", .str "backend"), ("host_name", .str "zeus"),
            ("job", .str "log-generator")]),
          ("values", .arr [.arr [.str "1700000000000000000", .str "User logged in"]])]])] := by
  refine ⟨?_, fun _ => rfl, fun _ => rfl, by decide, by rfl⟩
  intro severity source serviceName hostName message unixNano
  refine ⟨_, _, rfl, rfl, rfl, rfl, rfl, rfl, rfl, rfl, rfl, rfl, rfl⟩

/-- C3: each of the five tables is non-empty, every index below the length of a table
looks up an element of that table, and a pass whose draws are in range samples one
element from each table and leaves the five tables as they were. -/
theorem sampling_in_range :
    (∀ table ∈ [tables.hostNames, tables.serviceNames, tables.sourceNames,
        tables.severityNames, tables.messageNames],
      table ≠ [] ∧ ∀ r, r < table.length → ∃ v, index table r = some v ∧ v ∈ table) ∧
    (∀ env : PassEnv, env.DrawsInRange tables →
      ∃ s, sample tables env = some (s, tables) ∧ s.severity ∈ severityNames ∧
        s.source ∈ sourceNames ∧ s.serviceName ∈ serviceNames ∧
        s.hostName ∈ hostNames ∧ s.message ∈ messageNames ∧
        (pass tables env).tables = tables) := by
  constructor
  · intro table ht
    refine ⟨?_, fun r hr => index_of_lt table r hr⟩
    simp only [List.mem_cons, List.mem_singleton, List.not_mem_nil, or_false] at ht
    rcases ht with h | h | h | h | h <;> subst h <;> decide
  · intro env h
    obtain ⟨s, hs, m1, m2, m3, m4, m5⟩ := sample_of_inRange tables env h
    refine ⟨s, hs, m1, m2, m3, m4, m5, ?_⟩
    unfold pass
    rw [hs]
    dsimp only
    split
    · rfl
    · split <;> rfl

/-- Witness of C3 at the severity table and index 6, which holds the value warning. -/
theorem sampling_in_range_witness :
    severityNames ∈ [tables.hostNames, tables.serviceNames, tables.sourceNames,
        tables.severityNames, tables.messageNames] ∧
      6 < severityNames.length ∧ index severityNames 6 = some "warning" ∧
      ∃ v, index severityNames 6 = some v ∧ v ∈ severityNames :=
  ⟨by simp [tables], by decide, by decide,
    (sampling_in_range.1 severityNames (by simp [tables])).2 6 (by decide)⟩

/-- C4: with a uniform index the probability of drawing `v` from a table is the number
of occurrences of `v` over the length of the table; for the severity table this is 6/12
for info, 3/12 for debug and 1/12 for each of warning, error and critical, and for the
service table 4/21 for service and 1/21 for every other service name. -/
theorem drawProbability_weighting :
    (∀ (table : List String) (v : String),
      drawProbability table v = (table.count v : ℚ) / (table.length : ℚ)) ∧
    drawProbability severityNames "info" = 6 / 12 ∧
    drawProbability severityNames "debug" = 3 / 12 ∧
    drawProbability severityNames "warning" = 1 / 12 ∧
    drawProbability severityNames "error" = 1 / 12 ∧
    drawProbability severityNames "critical" = 1 / 12 ∧
    drawProbability serviceNames "service" = 4 / 21 ∧
    (∀ v ∈ serviceNames, v ≠ "service" → drawProbability serviceNames v = 1 / 21) := by
  have hsev : severityNames.length = 12 := by decide
  have hsvc : serviceNames.length = 21 := by decide
  refine ⟨drawProbability_eq, ?_, ?_, ?_, ?_, ?_, ?_, ?_⟩
  · rw [drawProbability_eq, hsev, show severityNames.count "info" = 6 by decide]
    norm_num
  · rw [drawProbability_eq, hsev, show severityNames.count "debug" = 3 by decide]
    norm_num
  · rw [drawProbability_eq, hsev, show severityNames.count "warning" = 1 by decide]
    norm_num
  · rw [drawProbability_eq, hsev, show severityNames.count "error" = 1 by decide]
    norm_num
  · rw [drawProbability_eq, hsev, show severityNames.count "critical" = 1 by decide]
    norm_num
  · rw [drawProbability_eq, hsvc, show serviceNames.count "service" = 4 by decide]
    norm_num
  · intro v hv hne
    have h1 : serviceNames.count v = 1 := by
      simp only [serviceNames, List.mem_cons, List.mem_singleton, List.not_mem_nil,
        or_false] at hv
      rcases hv with h | h | h | h | h | h | h | h | h | h | h | h | h | h | h | h | h | h |
          h | h | h <;>
        first
          | exact absurd h hne
          | (subst h; decide)
    rw [drawProbability_eq, hsvc, h1]
    norm_num

/-- Witness of C4 at the service name backend, which occurs once among 21 entries. -/
theorem drawProbability_weighting_witness :
    "backend" ∈ serviceNames ∧ "backend" ≠ "service" ∧
      drawProbability serviceNames "backend" = 1 / 21 :=
  ⟨by decide, by decide, drawProbability_weighting.2.2.2.2.2.2.2 "backend" (by decide) (by decide)⟩

/-- C5: for every result `r` of `rand.Intn(2000)` the sleep duration is exactly
`(1000 + r)` milliseconds, computed without overflow of a signed 64-bit integer, and it
lies between 1000 ms and 3000 ms. -/
theorem sleepDuration_bounds (r : Nat) (h : r < 2000) :
    sleepDuration r = (1000 + (r : Int)) * millisecond ∧
      -9223372036854775808 ≤ (1000 + (r : Int)) * millisecond ∧
      (1000 + (r : Int)) * millisecond < 9223372036854775808 ∧
      1000 * millisecond ≤ sleepDuration r ∧ sleepDuration r ≤ 3000 * millisecond := by
  rw [sleepDuration_exact r h]
  unfold millisecond
  refine ⟨rfl, ?_, ?_, ?_, ?_⟩ <;> omega

/-- Witness of C5 at the largest draw, 1999. -/
theorem sleepDuration_bounds_witness :
    (1999 : Nat) < 2000 ∧ sleepDuration (1999 : Nat) = 2999 * millisecond ∧
      1000 * millisecond ≤ sleepDuration (1999 : Nat) ∧
      sleepDuration (1999 : Nat) ≤ 3000 * millisecond :=
  ⟨by decide, by decide, (sleepDuration_bounds 1999 (by decide)).2.2.2.1,
    (sleepDuration_bounds 1999 (by decide)).2.2.2.2⟩

/-- C6, as stated, fails: no result of `rand.Intn(2000)` gives a delay of 3000 ms. -/
theorem sleepDuration_never_3000ms :
    ¬ ∃ r : Nat, r < 2000 ∧ sleepDuration r = 3000 * millisecond := by
  rintro ⟨r, hr, h⟩
  rw [sleepDuration_exact r hr] at h
  unfold millisecond at h
  omega

/-- C6, amended: the delays obtainable from the results of `rand.Intn(2000)` are exactly
the whole-millisecond durations from 1000 ms to 2999 ms inclusive. -/
theorem sleepDuration_range (d : Int) :
    (∃ r : Nat, r < 2000 ∧ sleepDuration r = d) ↔
      ∃ m : Int, 1000 ≤ m ∧ m ≤ 2999 ∧ d = m * millisecond := by
  constructor
  · rintro ⟨r, hr, h⟩
    refine ⟨1000 + (r : Int), by omega, by omega, ?_⟩
    rw [← h, sleepDuration_exact r hr]
    rfl
  · rintro ⟨m, h1, h2, h⟩
    refine ⟨(m - 1000).toNat, by omega, ?_⟩
    rw [sleepDuration_exact _ (by omega), h]
    have : (((m - 1000).toNat : Nat) : Int) = m - 1000 := Int.toNat_of_nonneg (by omega)
    rw [this]
    unfold millisecond
    ring

/-- C7: in a pass whose draws are in range the loop goes on to a next pass exactly when
both `json.Marshal` and `http.Post` return without error.  If `json.Marshal` fails the
pass ends with the fatal log and exit code 1 before any post; if `http.Post` fails the
pass ends with the fatal log and exit code 1; in both cases the run performs nothing of
the passes that would follow.  If `http.Post` succeeds the pass closes the body and goes
on, with the same actions whatever the status code. -/
theorem pass_fail_fast (tb : Tables) (env : PassEnv) (h : env.DrawsInRange tb) :
    ∃ s, sample tb env = some (s, tb) ∧
      ((pass tb env).outcome = .next ↔
        ∃ body status,
          env.marshal (logEntry s.severity s.source s.serviceName s.hostName s.message
            env.unixNano) = .ok body ∧
          env.post url "application/json" body = .ok status) ∧
      (∀ err,
        env.marshal (logEntry s.severity s.source s.serviceName s.hostName s.message
          env.unixNano) = .error err →
        (pass tb env).events = [.sleep (sleepDuration env.delayDraw), .fatal err] ∧
        (pass tb env).outcome = .exit 1 ∧
        ∀ rest, run tb (env :: rest)
          = ([.sleep (sleepDuration env.delayDraw), .fatal err], some (.exit 1))) ∧
      (∀ body err,
        env.marshal (logEntry s.severity s.source s.serviceName s.hostName s.message
          env.unixNano) = .ok body →
        env.post url "application/json" body = .error err →
        (pass tb env).events = [.sleep (sleepDuration env.delayDraw),
          .post url "application/json" body, .fatal err] ∧
        (pass tb env).outcome = .exit 1 ∧
        ∀ rest, run tb (env :: rest)
          = ([.sleep (sleepDuration env.delayDraw), .post url "application/json" body,
              .fatal err], some (.exit 1))) ∧
      (∀ body status,
        env.marshal (logEntry s.severity s.source s.serviceName s.hostName s.message
          env.unixNano) = .ok body →
        env.post url "application/json" body = .ok status →
        (pass tb env).events = [.sleep (sleepDuration env.delayDraw),
          .post url "application/json" body, .closeBody] ∧
        (pass tb env).outcome = .next ∧
        ∀ rest, run tb (env :: rest)
          = ([.sleep (sleepDuration env.delayDraw), .post url "application/json" body,
              .closeBody] ++ (run tb rest).1, (run tb rest).2)) := by
  obtain ⟨s, hs, _⟩ := sample_of_inRange tb env h
  refine ⟨s, hs, ?_, ?_, ?_, ?_⟩
  · unfold pass
    rw [hs]
    dsimp only
    cases hm : env.marshal (logEntry s.severity s.source s.serviceName s.hostName s.message
        env.unixNano) with
    | error err => simp
    | ok body =>
      cases hp : env.post url "application/json" body with
      | error err => simp [hp]
      | ok status => simp [hp]
  · intro err hm
    have hpass : pass tb env
        = ⟨[.sleep (sleepDuration env.delayDraw), .fatal err], .exit 1, tb⟩ := by
      unfold pass
      rw [hs]
      dsimp only
      rw [hm]
      rfl
    refine ⟨by rw [hpass], by rw [hpass], fun rest => ?_⟩
    simp only [run, hpass]
  · intro body err hm hp
    have hpass : pass tb env
        = ⟨[.sleep (sleepDuration env.delayDraw), .post url "application/json" body,
            .fatal err], .exit 1, tb⟩ := by
      unfold pass
      rw [hs]
      dsimp only
      rw [hm]
      dsimp only
      rw [hp]
      rfl
    refine ⟨by rw [hpass], by rw [hpass], fun rest => ?_⟩
    simp only [run, hpass]
  · intro body status hm hp
    have hpass : pass tb env
        = ⟨[.sleep (sleepDuration env.delayDraw), .post url "application/json" body,
            .closeBody], .next, tb⟩ := by
      unfold pass
      rw [hs]
      dsimp only
      rw [hm]
      dsimp only
      rw [hp]
      rfl
    refine ⟨by rw [hpass], by rw [hpass], fun rest => ?_⟩
    simp only [run, hpass]

/-- Witness of C7: a pass with all draws in range whose post is refused; the run ends
with exit code 1 and performs nothing of the pass that follows. -/
theorem pass_fail_fast_witness :
    PassEnv.DrawsInRange tables
        ⟨5, 17, 6, 1, 1, 0, 0, fun _ => .ok "b", fun _ _ _ => .error "refused"⟩ ∧
      run tables [⟨5, 17, 6, 1, 1, 0, 0, fun _ => .ok "b", fun _ _ _ => .error "refused"⟩,
          ⟨7, 18, 0, 0, 0, 0, 0, fun _ => .ok "c", fun _ _ _ => .ok 200⟩]
        = ([.sleep 1005000000, .post url "application/json" "b", .fatal "refused"],
            some (.exit 1)) := by
  have h : PassEnv.DrawsInRange tables
      ⟨5, 17, 6, 1, 1, 0, 0, fun _ => .ok "b", fun _ _ _ => .error "refused"⟩ := by
    unfold PassEnv.DrawsInRange
    decide
  obtain ⟨s, _, _, _, hpost, _⟩ := pass_fail_fast tables _ h
  exact ⟨h, ((hpost "b" "refused" rfl rfl).2.2 _).trans (by decide)⟩

end LogGenerator

namespace SampleApp

/-! ## Properties of `main.go` -/

theorem compareSwap_at (pre : List Int) (a b : Int) (post : List Int) :
    compareSwap (pre ++ a :: b :: post) pre.length
      = some (pre ++ (if a > b then b :: a :: post else a :: b :: post)) := by
  have h1 : (pre ++ a :: b :: post)[pre.length]? = some a := by
    rw [List.getElem?_append_right (le_refl _)]; simp
  have h2 : (pre ++ a :: b :: post)[pre.length + 1]? = some b := by
    rw [List.getElem?_append_right (by omega)]; simp
  unfold compareSwap
  rw [h1, h2]
  by_cases h : a > b
  · simp [h, List.set_append]
  · simp [h]

theorem innerLoop_carry (n i : Nat) : ∀ (r : Nat) (pre : List Int) (a : Int) (rest : List Int),
    r ≤ rest.length → (pre.length : Int) + r = (n : Int) - i - 1 →
    innerLoop n i pre.length (pre ++ a :: rest) = some (pre ++ carry r a rest) := by
  intro r
  induction r with
  | zero =>
    intro pre a rest _ hb
    rw [innerLoop]
    have : ¬ ((pre.length : Int) < (n : Int) - i - 1) := by omega
    simp [this, carry]
  | succ r ih =>
    intro pre a rest hr hb
    cases rest with
    | nil => simp at hr
    | cons b rest =>
      rw [innerLoop]
      have hlt : (pre.length : Int) < (n : Int) - i - 1 := by omega
      rw [if_pos hlt, compareSwap_at]
      simp only [List.length_cons] at hr
      by_cases h : a > b
      · have := ih (pre ++ [b]) a rest (by omega) (by simp; omega)
        simp only [List.length_append, List.length_singleton, List.append_assoc,
          List.singleton_append] at this
        simp [h, carry, this]
      · have := ih (pre ++ [a]) b rest (by omega) (by simp; omega)
        simp only [List.length_append, List.length_singleton, List.append_assoc,
          List.singleton_append] at this
        simp [h, carry, this]

theorem carry_split : ∀ (front : List Int) (a : Int) (back : List Int),
    ∃ init m, carry front.length a (front ++ back) = init ++ m :: back ∧
      (init ++ [m]).Perm (a :: front) ∧ (∀ x ∈ init, x ≤ m) ∧ a ≤ m := by
  intro front
  induction front with
  | nil =>
    intro a back
    exact ⟨[], a, by simp [carry], by simp, by simp, le_refl _⟩
  | cons b f ih =>
    intro a back
    by_cases h : a > b
    · obtain ⟨init, m, hc, hp, hle, ham⟩ := ih a back
      refine ⟨b :: init, m, ?_, ?_, ?_, ham⟩
      · simp [carry, h, hc]
      · exact ((hp.cons b).trans (List.Perm.swap a b f))
      · intro x hx
        rcases List.mem_cons.mp hx with rfl | hx
        · omega
        · exact hle x hx
    · obtain ⟨init, m, hc, hp, hle, hbm⟩ := ih b back
      refine ⟨a :: init, m, ?_, ?_, ?_, by omega⟩
      · simp [carry, h, hc]
      · exact hp.cons a
      · intro x hx
        rcases List.mem_cons.mp hx with rfl | hx
        · omega
        · exact hle x hx

theorem outerLoop_sorts (n : Nat) : ∀ (k : Nat) (front back : List Int) (i : Nat),
    front.length = k → back.length = i → k + i = n →
    back.Sorted (· ≤ ·) → (∀ x ∈ front, ∀ y ∈ back, x ≤ y) →
    ∃ out, outerLoop n i (front ++ back) = some out ∧ out.Sorted (· ≤ ·) ∧
      out.Perm (front ++ back) := by
  intro k
  induction k with
  | zero =>
    intro front back i hk hi hn hs hfb
    have hf : front = [] := List.length_eq_zero.mp hk
    subst hf
    rw [outerLoop, if_neg (by omega)]
    exact ⟨back, rfl, hs, List.Perm.refl _⟩
  | succ k ih =>
    intro front back i hk hi hn hs hfb
    cases front with
    | nil => simp at hk
    | cons a f =>
      simp only [List.length_cons, Nat.add_right_cancel_iff] at hk
      by_cases hlt : (i : Int) < (n : Int) - 1
      · rw [outerLoop, if_pos hlt]
        have hin := innerLoop_carry n i f.length [] a (f ++ back) (by simp)
          (by simp; omega)
        simp only [List.length_nil, List.nil_append] at hin
        obtain ⟨init, m, hc, hp, hle, _⟩ := carry_split f a back
        have hcons : (a :: f) ++ back = a :: (f ++ back) := rfl
        rw [hcons, hin, hc]
        have hmem : ∀ x, x ∈ init ++ [m] → x ∈ a :: f := fun x hx => hp.subset hx
        have hlen : init.length = k := by
          have := hp.length_eq
          simp at this
          omega
        have hm : m ∈ a :: f := hmem m (by simp)
        obtain ⟨out, ho, hso, hpo⟩ := ih init (m :: back) (i + 1) hlen (by simp [hi])
          (by omega)
          (List.sorted_cons.mpr ⟨fun y hy => hfb m hm y hy, hs⟩)
          (by
            intro x hx y hy
            rcases List.mem_cons.mp hy with rfl | hy
            · exact hle x hx
            · exact hfb x (hmem x (by simp [hx])) y hy)
        refine ⟨out, ho, hso, hpo.trans ?_⟩
        have : init ++ m :: back = (init ++ [m]) ++ back := by simp
        rw [this]
        exact hp.append_right back
      · rw [outerLoop, if_neg hlt]
        have hf : f = [] := by
          apply List.length_eq_zero.mp
          omega
        subst hf
        refine ⟨[a] ++ back, rfl, ?_, List.Perm.refl _⟩
        exact List.sorted_cons.mpr ⟨fun y hy => hfb a (by simp) y hy, hs⟩

theorem bubbleSort_sorts (arr : List Int) :
    ∃ out, bubbleSort arr = some out ∧ out.Sorted (· ≤ ·) ∧ out.Perm arr := by
  obtain ⟨out, h, hs, hp⟩ := outerLoop_sorts arr.length arr.length arr [] 0 rfl rfl rfl
    List.sorted_nil (by simp)
  simp only [List.append_nil] at h hp
  exact ⟨out, h, hs, hp⟩

theorem concurrentWorkFrom_eq (workers : Int) : ∀ (n i : Nat), (workers - i).toNat = n →
    concurrentWorkFrom workers i = (List.range n).map (fun d => worker ((i + d : Nat) : Int)) := by
  intro n
  induction n with
  | zero =>
    intro i h
    rw [concurrentWorkFrom, if_neg (by omega)]
    rfl
  | succ n ih =>
    intro i h
    rw [concurrentWorkFrom, if_pos (by omega), ih (i + 1) (by omega), List.range_succ_eq_map,
      List.map_cons, List.map_map]
    congr 1
    apply List.map_congr_left
    intro d _
    simp only [Function.comp, Nat.succ_eq_add_one]
    congr 2
    omega

theorem worker_work (i : Nat) :
    (worker i).work =
      if i % 3 = 0 then [.cpuIntensiveWork 1000000]
      else if i % 3 = 1 then [.memoryIntensiveWork 500]
      else [.stringProcessing 10000] := by
  have h1 : Int.tmod (i : Int) 3 = ((i % 3 : Nat) : Int) := by
    rw [Int.tmod_eq_emod (by omega) (by decide)]
    omega
  have : i % 3 = 0 ∨ i % 3 = 1 ∨ i % 3 = 2 := by omega
  simp only [worker]
  rw [h1]
  rcases this with h | h | h <;> rw [h] <;> rfl

/-- C8: `concurrentWork` starts one goroutine for each index below `workers` and none
when `workers` is not positive; goroutine `i` carries the label worker = worker-`i` and
runs exactly one workload, chosen by `i mod 3`: CPU work of 1000000 for 0, memory work of
500 for 1, string processing of 10000 for 2.  The catalog calls it with 10 workers: CPU
workers 0, 3, 6, 9, memory workers 1, 4, 7 and string workers 2, 5, 8. -/
theorem concurrentWork_assignment :
    (∀ workers : Int, (concurrentWork workers).length = workers.toNat) ∧
    (∀ workers : Int, workers ≤ 0 → concurrentWork workers = []) ∧
    (∀ (workers : Int) (i : Nat), (i : Int) < workers →
      ∃ w, (concurrentWork workers)[i]? = some w ∧ w.workerID = i ∧
        w.label = ("worker", "worker-" ++ toString i) ∧
        w.work =
          if i % 3 = 0 then [.cpuIntensiveWork 1000000]
          else if i % 3 = 1 then [.memoryIntensiveWork 500]
          else [.stringProcessing 10000]) ∧
    CatalogEntry.concurrentFunction.body = [.concurrentWork 10] ∧
    ((concurrentWork 10).filter (fun w => w.work = [.cpuIntensiveWork 1000000])).map
        (fun w => w.workerID) = [0, 3, 6, 9] ∧
    ((concurrentWork 10).filter (fun w => w.work = [.memoryIntensiveWork 500])).map
        (fun w => w.workerID) = [1, 4, 7] ∧
    ((concurrentWork 10).filter (fun w => w.work = [.stringProcessing 10000])).map
        (fun w => w.workerID) = [2, 5, 8] := by
  have hall : ∀ workers : Int, concurrentWork workers
      = (List.range workers.toNat).map (fun d => worker ((0 + d : Nat) : Int)) := by
    intro workers
    unfold concurrentWork
    exact concurrentWorkFrom_eq workers workers.toNat 0 (by simp)
  have hten : concurrentWork 10 = (List.range 10).map (fun d => worker ((0 + d : Nat) : Int)) :=
    hall 10
  refine ⟨?_, ?_, ?_, rfl, ?_, ?_, ?_⟩
  · intro workers
    rw [hall]
    simp
  · intro workers h
    rw [hall, Int.toNat_of_nonpos h]
    rfl
  · intro workers i hi
    refine ⟨worker i, ?_, rfl, rfl, worker_work i⟩
    rw [hall, List.getElem?_map, List.getElem?_range (by omega)]
    simp
  · rw [hten]; decide
  · rw [hten]; decide
  · rw [hten]; decide

/-- Witness of C8 at 10 workers and index 7, a memory worker. -/
theorem concurrentWork_assignment_witness :
    ((7 : Nat) : Int) < 10 ∧
      ∃ w, (concurrentWork 10)[7]? = some w ∧ w.workerID = ((7 : Nat) : Int) ∧
        w.label = ("worker", "worker-" ++ toString 7) ∧
        w.work =
          if 7 % 3 = 0 then [.cpuIntensiveWork 1000000]
          else if 7 % 3 = 1 then [.memoryIntensiveWork 500]
          else [.stringProcessing 10000] :=
  ⟨by decide, concurrentWork_assignment.2.2.1 10 7 (by decide)⟩

/-- C9, as stated, fails: the sorting function calls `sortingWork(5000)`, and
`sortingWork(5000)` returns without having run `bubbleSort`. -/
theorem sortingWork_5000_skips_bubbleSort :
    CatalogEntry.sortingFunction.body = [.sortingWork 5000] ∧
      (sortingWork 5000 (fun k => 1700000000000000000 + 137 * k)).map (fun run => run.data2)
        = some none := by
  refine ⟨rfl, ?_⟩
  unfold sortingWork
  rw [if_neg (by decide), if_neg (by decide)]
  rfl

/-- C9, amended: for every non-negative size `sortingWork` returns, having run
`sort.Ints` on a copy of the generated data, and having run `bubbleSort` on a second copy
exactly when the size is at most 1000; the sorting function of the catalog calls it with
size 5000, for which `bubbleSort` is not run. -/
theorem sortingWork_runs (size : Int) (clock : Nat → Int) (h : 0 ≤ size) :
    CatalogEntry.sortingFunction.body = [.sortingWork 5000] ∧
    ∃ run, sortingWork size clock = some run ∧
      run.data.length = size.toNat ∧
      run.data1 = sortInts run.data ∧
      run.data2 = (if size ≤ 1000 then bubbleSort run.data else none) ∧
      (run.data2.isSome ↔ size ≤ 1000) ∧
      (size = 5000 → run.data2 = none) := by
  refine ⟨rfl, ?_⟩
  unfold sortingWork
  rw [if_neg (by omega)]
  dsimp only
  by_cases hs : size ≤ 1000
  · rw [if_pos hs]
    obtain ⟨out, ho, _, _⟩ := bubbleSort_sorts
      ((List.range size.toNat).map (fun k => Int.tmod (wrapInt64 (clock k)) 10000))
    rw [ho]
    refine ⟨_, rfl, by simp, rfl, ?_, ?_, ?_⟩
    · simp only [if_pos hs]
      exact ho.symm
    · simp [hs]
    · intro h5
      omega
  · rw [if_neg hs]
    refine ⟨_, rfl, by simp, rfl, ?_, ?_, ?_⟩
    · simp only [if_neg hs]
    · simp [hs]
    · intro _
      rfl

/-- Witness of C9, amended, at size 3 with three clock readings. -/
theorem sortingWork_runs_witness :
    (0 : Int) ≤ 3 ∧
    ∃ run, sortingWork 3 (fun k => 25 - 10 * k) = some run ∧
      run.data.length = (3 : Int).toNat ∧
      run.data1 = sortInts run.data ∧
      run.data2 = (if (3 : Int) ≤ 1000 then bubbleSort run.data else none) ∧
      (run.data2.isSome ↔ (3 : Int) ≤ 1000) ∧
      ((3 : Int) = 5000 → run.data2 = none) :=
  ⟨by decide, (sortingWork_runs 3 (fun k => 25 - 10 * k) (by decide)).2⟩

/-- C10: for every slice, the empty and the one-element slices included, `bubbleSort`
returns without an index out of range, and the slice is then in non-decreasing order, of
the same length, a permutation of its original contents and equal to the result of
`sort.Ints` on the same input. -/
theorem bubbleSort_correct (arr : List Int) :
    ∃ out, bubbleSort arr = some out ∧ out.Sorted (· ≤ ·) ∧ out.length = arr.length ∧
      out.Perm arr ∧ out = sortInts arr := by
  obtain ⟨out, h, hs, hp⟩ := bubbleSort_sorts arr
  refine ⟨out, h, hs, hp.length_eq, hp, ?_⟩
  unfold sortInts
  exact List.eq_of_perm_of_sorted (hp.trans (List.perm_insertionSort _ arr).symm) hs
    (List.sorted_insertionSort _ arr)

end SampleApp
